import Mathlib

/-!
Verification development for the libdvid-cpp client layer
(`src/libdvid/DVIDNodeService.h`).

The repository ships only the declaration header `DVIDNodeService.h`;
the method bodies are not part of the source tree.  Where a definition
below embeds behaviour whose implementation is absent, its doc comment
starts with `Modelled from the spec:` and names the missing code; the
definition follows the specification's words.  Definitions taken
directly from the header (signatures, default argument values, the
fixed block size) cite the header.
-/

namespace LibDvid

/-- Error taxonomy of the client layer (spec section 7): `InvalidArgument`
for malformed dims/offset/channels/partition size, `AlignmentError` for a
PUT that is not block aligned, `SizeMismatch` for a buffer whose byte
length disagrees with its declared shape on encode, `ProtocolError` for a
response whose byte length disagrees with the declared shape on decode. -/
inductive ErrorType where
  | InvalidArgument
  | AlignmentError
  | SizeMismatch
  | ProtocolError
deriving DecidableEq, Repr

/-- Largest signed 32-bit integer; `DVIDNodeService.h` bounds every volume
request by `INT_MAX/8` voxels (header lines 154, 178, 203, 227, 263, 285). -/
def INT_MAX : Nat := 2147483647

/-- Fixed DVID block edge length in voxels: "The size of DVID blocks are
determined at repo creation and is always 32x32x32 currently"
(`DVIDNodeService.h` lines 256-258). -/
def BLOCK_EDGE : Nat := 32

/-- A volume GET request as it reaches the transport: the parameters of
`construct_volume_uri` (`DVIDNodeService.h` lines 696-699) that the claims
observe. -/
structure VolumeRequest where
  sizes : List Nat
  offset : List Int
  channels : List Nat
  throttle : Bool
  compress : Bool
deriving DecidableEq, Repr

/-- Modelled from the spec: the Coordinate/Channel Mapper validation of
`get_volume3D` (implementation absent from `src/`).  Spec section 4.1:
"validate that `len(Dims) == len(Offset) == len(Channels)`, that Channels
is a permutation, and that the element count does not overflow the safety
bound" (`count ≤ INT_MAX / 8`, spec section 6). -/
def validate_volume (sizes : List Nat) (offset : List Int)
    (channels : List Nat) : Bool :=
  decide (sizes.length = offset.length) &&
  decide (sizes.length = channels.length) &&
  channels.all (fun c => decide (c < channels.length)) &&
  decide channels.Nodup &&
  decide (sizes.prod ≤ INT_MAX / 8)

/-- Modelled from the spec: the helper `get_volume3D`
(`DVIDNodeService.h` lines 681-683, body absent from `src/`).  Validation
happens "before any network call" (spec section 7), so the result carries
the list of requests handed to the transport: a failed validation issues
none. -/
def get_volume3D (sizes : List Nat) (offset : List Int)
    (channels : List Nat) (throttle compress : Bool) :
    Except ErrorType VolumeRequest × List VolumeRequest :=
  if validate_volume sizes offset channels then
    (Except.ok ⟨sizes, offset, channels, throttle, compress⟩,
      [⟨sizes, offset, channels, throttle, compress⟩])
  else
    (Except.error ErrorType.InvalidArgument, [])

/-- `get_gray3D` (`DVIDNodeService.h` lines 188-191): grayscale GET with
caller-chosen channel order; the header defaults are `throttle=true` and
`compress=false`, resolved here from optional arguments. -/
def get_gray3D (sizes : List Nat) (offset : List Int) (channels : List Nat)
    (throttle compress : Option Bool) :
    Except ErrorType VolumeRequest × List VolumeRequest :=
  get_volume3D sizes offset channels (throttle.getD true) (compress.getD false)

/-- `get_labels3D` (`DVIDNodeService.h` lines 237-240): label GET with
caller-chosen channel order; the header defaults are `throttle=true` and
`compress=true`, resolved here from optional arguments. -/
def get_labels3D (sizes : List Nat) (offset : List Int) (channels : List Nat)
    (throttle compress : Option Bool) :
    Except ErrorType VolumeRequest × List VolumeRequest :=
  get_volume3D sizes offset channels (throttle.getD true) (compress.getD true)

/-- A volume PUT request as it reaches the transport.  A 3D volume object
(`Grayscale3D`/`Labels3D`) fixes three dimension sizes, and the channel
order of a PUT "is always X, Y, Z" (`DVIDNodeService.h` lines 258-259), so
sizes and offset are triples. -/
structure PutRequest where
  sizes : Nat × Nat × Nat
  offset : Int × Int × Int
  throttle : Bool
  compress : Bool
deriving DecidableEq, Repr

/-- Modelled from the spec: the block-alignment predicate of `put_volume`
(implementation absent from `src/`).  Spec section 4.1: "every offset
component and every dimension component (in X,Y,Z order) must be an exact
multiple of the fixed block edge length (32)". -/
def blockAligned (sizes : Nat × Nat × Nat) (offset : Int × Int × Int) : Bool :=
  decide (sizes.1 % BLOCK_EDGE = 0) &&
  decide (sizes.2.1 % BLOCK_EDGE = 0) &&
  decide (sizes.2.2 % BLOCK_EDGE = 0) &&
  decide (offset.1 % (BLOCK_EDGE : Int) = 0) &&
  decide (offset.2.1 % (BLOCK_EDGE : Int) = 0) &&
  decide (offset.2.2 % (BLOCK_EDGE : Int) = 0)

/-- Modelled from the spec: the helper `put_volume` (`DVIDNodeService.h`
lines 629-631, body absent from `src/`).  Alignment is validated on the
PUT path before the request URI (and with it the element-count bound) is
built, so that "for any Offset/Dims where some component is not a multiple
of 32, `put_*` fails with `AlignmentError` before any request is sent"
(spec section 8); all validation precedes any transport call (spec
section 7), so a failure issues zero requests. -/
def put_volume (sizes : Nat × Nat × Nat) (offset : Int × Int × Int)
    (throttle compress : Bool) : Except ErrorType Unit × List PutRequest :=
  if blockAligned sizes offset then
    if sizes.1 * sizes.2.1 * sizes.2.2 ≤ INT_MAX / 8 then
      (Except.ok (), [⟨sizes, offset, throttle, compress⟩])
    else
      (Except.error ErrorType.InvalidArgument, [])
  else
    (Except.error ErrorType.AlignmentError, [])

/-- `put_gray3D` (`DVIDNodeService.h` lines 271-273): grayscale PUT; the
header defaults are `throttle=true` and `compress=false`. -/
def put_gray3D (sizes : Nat × Nat × Nat) (offset : Int × Int × Int)
    (throttle compress : Option Bool) :
    Except ErrorType Unit × List PutRequest :=
  put_volume sizes offset (throttle.getD true) (compress.getD false)

/-- `put_labels3D` (`DVIDNodeService.h` lines 294-296): label PUT; the
header defaults are `throttle=true` and `compress=true`. -/
def put_labels3D (sizes : Nat × Nat × Nat) (offset : Int × Int × Int)
    (throttle compress : Option Bool) :
    Except ErrorType Unit × List PutRequest :=
  put_volume sizes offset (throttle.getD true) (compress.getD true)

/-- Length of the longest run of the byte `v` at the head of a buffer,
together with the remaining buffer. -/
def runLen (v : Nat) : List Nat → Nat × List Nat
  | [] => (0, [])
  | x :: xs => if x = v then ((runLen v xs).1 + 1, (runLen v xs).2) else (0, x :: xs)

/-- Modelled from the spec: the "fixed block-oriented compression scheme"
the Volume Codec wraps buffers with when `compress` is set (spec section
4.2; the lz4 wrapper implementation is absent from `src/`).  The scheme is
modelled as a lossless run-length form: a list of (run length, byte)
pairs, "transparent to the caller". -/
def rleEncode : List Nat → List (Nat × Nat)
  | [] => []
  | x :: xs => ((runLen x xs).1 + 1, x) :: rleEncode (runLen x xs).2
termination_by l => l.length
decreasing_by
  simp only [List.length_cons]
  have h : ∀ (w : Nat) (l : List Nat), (runLen w l).2.length ≤ l.length := by
    intro w l
    induction l with
    | nil => simp [runLen]
    | cons a as ih =>
      by_cases hv : a = w
      · simp only [runLen, if_pos hv]
        exact Nat.le_succ_of_le ih
      · simp [runLen, if_neg hv]
  exact Nat.lt_succ_of_le (h x xs)

/-- Modelled from the spec: inverse of `rleEncode`; expands each
(run length, byte) pair back into a run of bytes. -/
def rleDecode : List (Nat × Nat) → List Nat
  | [] => []
  | p :: rest => List.replicate p.1 p.2 ++ rleDecode rest

/-- The wire payload of a volume transfer: either the raw buffer bytes or
the compressed wrap (spec section 4.2). -/
inductive WirePayload where
  | raw (bytes : List Nat)
  | compressed (runs : List (Nat × Nat))
deriving DecidableEq, Repr

/-- Modelled from the spec: the Volume Codec encode direction used by
`put_volume` (spec section 4.2; implementation absent from `src/`):
"(1) confirm the buffer's byte length equals `product(Dims) *
element_size`, failing with `SizeMismatch` otherwise, and (2) optionally
wrap ... when `compress` is set". -/
def encode_volume (buffer : List Nat) (sizes : List Nat) (elemSize : Nat)
    (compress : Bool) : Except ErrorType WirePayload :=
  if buffer.length = sizes.prod * elemSize then
    if compress then
      Except.ok (WirePayload.compressed (rleEncode buffer))
    else
      Except.ok (WirePayload.raw buffer)
  else
    Except.error ErrorType.SizeMismatch

/-- Modelled from the spec: the Volume Codec decode direction used by
`get_volume3D` (spec section 4.2; implementation absent from `src/`):
"Decoding must reject a response whose byte length does not match the
expected volume size, surfacing a `ProtocolError`". -/
def decode_volume (wire : WirePayload) (sizes : List Nat) (elemSize : Nat) :
    Except ErrorType (List Nat) :=
  match wire with
  | WirePayload.raw bytes =>
    if bytes.length = sizes.prod * elemSize then Except.ok bytes
    else Except.error ErrorType.ProtocolError
  | WirePayload.compressed runs =>
    if (rleDecode runs).length = sizes.prod * elemSize then
      Except.ok (rleDecode runs)
    else Except.error ErrorType.ProtocolError

/-- Block coordinate triple, from `DVIDBlocks.h`/`DVIDRoi.h` usage in the
header (X, Y, Z in block units). -/
@[ext]
structure BlockXYZ where
  x : Int
  y : Int
  z : Int
deriving DecidableEq, Repr

/-- Voxel coordinate triple, from `DVIDRoi.h` usage in the header. -/
structure PointXYZ where
  x : Int
  y : Int
  z : Int
deriving DecidableEq, Repr

/-- The ROI block order promised by `get_roi` (`DVIDNodeService.h` line
542): "ordered by Z then Y then X", non-strict form. -/
def zyxLe (a b : BlockXYZ) : Prop :=
  a.z < b.z ∨ (a.z = b.z ∧ (a.y < b.y ∨ (a.y = b.y ∧ a.x ≤ b.x)))

/-- Strict version of `zyxLe`. -/
def zyxLt (a b : BlockXYZ) : Prop :=
  a.z < b.z ∨ (a.z = b.z ∧ (a.y < b.y ∨ (a.y = b.y ∧ a.x < b.x)))

instance : DecidableRel zyxLe := fun a b =>
  inferInstanceAs (Decidable (a.z < b.z ∨ (a.z = b.z ∧ (a.y < b.y ∨ (a.y = b.y ∧ a.x ≤ b.x)))))

instance : DecidableRel zyxLt := fun a b =>
  inferInstanceAs (Decidable (a.z < b.z ∨ (a.z = b.z ∧ (a.y < b.y ∨ (a.y = b.y ∧ a.x < b.x)))))

instance : IsTotal BlockXYZ zyxLe where
  total a b := by
    unfold zyxLe
    omega

instance : IsTrans BlockXYZ zyxLe where
  trans a b c hab hbc := by
    unfold zyxLe at *
    omega

instance : IsAntisymm BlockXYZ zyxLe where
  antisymm a b hab hba := by
    obtain ⟨ax, ay, az⟩ := a
    obtain ⟨bx, by_, bz⟩ := b
    simp only [zyxLe] at hab hba
    simp only [BlockXYZ.mk.injEq]
    omega

/-- Modelled from the spec: the server-side ROI state as this layer
observes it.  `post_roi` (`DVIDNodeService.h` lines 537-538, body absent
from `src/`) "will extend the ROI if it defines blocks outside of the
currently defined ROI" — a union, blocks acceptable "in any order". -/
def post_roi (state : List BlockXYZ) (blockcoords : List BlockXYZ) :
    List BlockXYZ :=
  state ++ blockcoords

/-- Modelled from the spec: `get_roi` (`DVIDNodeService.h` lines 546-547,
body absent from `src/`): returns the ROI's blocks (each once) "ordered by
Z then Y then X". -/
def get_roi (state : List BlockXYZ) : List BlockXYZ :=
  List.insertionSort zyxLe state.dedup

/-- Modelled from the spec: the block containing a voxel point (spec
section 4.4, "whether its containing block lies in the ROI"); voxel
coordinates are floor-divided by the block edge length. -/
def blockFromPoint (p : PointXYZ) : BlockXYZ :=
  ⟨p.x / (BLOCK_EDGE : Int), p.y / (BLOCK_EDGE : Int), p.z / (BLOCK_EDGE : Int)⟩

/-- Modelled from the spec: `roi_ptquery` (`DVIDNodeService.h` lines
569-571, body absent from `src/`): "for each input point (any order,
voxel coordinates), returns whether its containing block lies in the ROI;
output order matches input order exactly". -/
def roi_ptquery (roi : List BlockXYZ) (points : List PointXYZ) : List Bool :=
  points.map (fun p => decide (blockFromPoint p ∈ roi))

/-- Modelled from the spec: the minimum corner of the grid cube of edge
`ps` (in blocks) containing a block, for the ROI partition algorithm
(spec section 4.4: "tiles the ROI's bounding volume into a regular 3-D
grid of cubes of edge `partition_size`"). -/
def cellOf (ps : Nat) (b : BlockXYZ) : BlockXYZ :=
  ⟨(ps : Int) * (b.x / (ps : Int)), (ps : Int) * (b.y / (ps : Int)),
    (ps : Int) * (b.z / (ps : Int))⟩

/-- A block lies inside the grid cube of edge `ps` whose minimum corner is
`s` (componentwise `s ≤ b < s + ps`). -/
def inCube (ps : Nat) (s b : BlockXYZ) : Prop :=
  (s.x ≤ b.x ∧ b.x < s.x + ps) ∧ (s.y ≤ b.y ∧ b.y < s.y + ps) ∧
    (s.z ≤ b.z ∧ b.z < s.z + ps)

instance (ps : Nat) (s b : BlockXYZ) : Decidable (inCube ps s b) :=
  inferInstanceAs (Decidable (_ ∧ _ ∧ _))

/-- Modelled from the spec: `get_roi_partition` (`DVIDNodeService.h` lines
558-559, body absent from `src/`): requires `partition_size ≥ 1` (else
`InvalidArgument`); emits a substack (grid cube minimum corner) "if and
only if it intersects at least one ROI block", ordered Z then Y then X;
returns `packing_factor` = (total ROI block count) / (substack count ×
partition_size³), explicitly defined as 0 for an empty ROI. -/
def get_roi_partition (state : List BlockXYZ) (partition_size : Nat) :
    Except ErrorType (List BlockXYZ × ℚ) :=
  if partition_size = 0 then Except.error ErrorType.InvalidArgument
  else
    Except.ok
      (List.insertionSort zyxLe ((state.map (cellOf partition_size)).dedup),
        if ((state.map (cellOf partition_size)).dedup).length = 0 then 0
        else
          (state.dedup.length : ℚ) /
            ((((state.map (cellOf partition_size)).dedup).length : ℚ) *
              (partition_size : ℚ) ^ 3))

/-- The ROI made of every block of the grid cube of edge `ps` at the
origin: the "ROI that is exactly one full partition cube" of spec
section 8. -/
def fullCubeRoi (ps : Nat) : List BlockXYZ :=
  (List.range ps).flatMap fun (z : Nat) =>
    (List.range ps).flatMap fun (y : Nat) =>
      (List.range ps).map fun (x : Nat) => ⟨(x : Int), (y : Int), (z : Int)⟩

/-- Modelled from the spec: the per-vertex state of the Graph Transaction
Engine (spec section 4.6; the labelgraph client implementation is absent
from `src/`): each vertex carries a transaction token and a property
value, each edge (ordered vertex pair) a property value; "Tokens are
per-vertex, not per-edge". -/
structure GraphPropState where
  token : Nat → Nat
  vprop : Nat → List Nat
  eprop : Nat × Nat → List Nat

/-- Modelled from the spec: the vertex form of `set_properties`
(`DVIDNodeService.h` lines 496-500, body absent from `src/`).  For each
target vertex the supplied token is compared with the stored token; "on
match, it performs the write, advances the stored token to a new value,
and the target is not reported as leftover.  On mismatch ... the target
is added to a `leftover` output list and its data is left unchanged"
(spec section 4.6). -/
def set_vertex_properties (trans : Nat → Nat) :
    GraphPropState → List (Nat × List Nat) → GraphPropState × List Nat
  | σ, [] => (σ, [])
  | σ, (v, d) :: rest =>
    if trans v = σ.token v then
      set_vertex_properties trans
        { σ with
          token := fun u => if u = v then σ.token v + 1 else σ.token u,
          vprop := fun u => if u = v then d else σ.vprop u }
        rest
    else
      ((set_vertex_properties trans σ rest).1,
        v :: (set_vertex_properties trans σ rest).2)

/-- Modelled from the spec: the edge form of `set_properties`
(`DVIDNodeService.h` lines 515-519, body absent from `src/`).  "Edge
writes resolve to both endpoint vertices' tokens; if either is stale, the
edge is leftover" (spec section 4.6); a successful write advances both
endpoint tokens. -/
def set_edge_properties (trans : Nat → Nat) :
    GraphPropState → List (Nat × Nat × List Nat) →
      GraphPropState × List (Nat × Nat)
  | σ, [] => (σ, [])
  | σ, (a, b, d) :: rest =>
    if trans a = σ.token a ∧ trans b = σ.token b then
      set_edge_properties trans
        { σ with
          token := fun u => if u = a ∨ u = b then σ.token u + 1 else σ.token u,
          eprop := fun e => if e = (a, b) then d else σ.eprop e }
        rest
    else
      ((set_edge_properties trans σ rest).1,
        (a, b) :: (set_edge_properties trans σ rest).2)

/-- Modelled from the spec: `update_vertices` (`DVIDNodeService.h` lines
432-433, body absent from `src/`): "if the target does not exist, it is
created with the given weight; if it exists, its weight is incremented by
the given weight (not overwritten)" (spec section 4.6).  The stored graph
maps a vertex id to its weight when present. -/
def update_vertices : List (Nat × ℚ) → (Nat → Option ℚ) → Nat → Option ℚ
  | [], σ => σ
  | (v, w) :: rest, σ =>
    update_vertices rest
      (fun u =>
        if u = v then
          some (match σ v with
            | none => w
            | some w0 => w0 + w)
        else σ u)

/-- Modelled from the spec: `update_edges` (`DVIDNodeService.h` lines
445-446, body absent from `src/`): same accumulation as
`update_vertices`, keyed by the edge's vertex pair. -/
def update_edges : List ((Nat × Nat) × ℚ) → (Nat × Nat → Option ℚ) →
    Nat × Nat → Option ℚ
  | [], σ => σ
  | (e, w) :: rest, σ =>
    update_edges rest
      (fun u =>
        if u = e then
          some (match σ e with
            | none => w
            | some w0 => w0 + w)
        else σ u)

/-- Modelled from the spec: `body_exists` (`DVIDNodeService.h` line 585,
body absent from `src/`): "true iff the coarse block footprint for
`bodyid` is non-empty" (spec section 4.5).  The server-side coarse volume
is observed as a footprint map from body id to its block list. -/
def body_exists (footprint : Nat → List BlockXYZ) (bodyid : Nat) : Bool :=
  !(footprint bodyid).isEmpty

/-- Modelled from the spec: `get_coarse_body` (`DVIDNodeService.h` lines
608-609, body absent from `src/`): "returns the block-level footprint
(not full-resolution voxels); empty result and `false` return together
signal absence, not an error" (spec section 4.5). -/
def get_coarse_body (footprint : Nat → List BlockXYZ) (bodyid : Nat) :
    Bool × List BlockXYZ :=
  (!(footprint bodyid).isEmpty, footprint bodyid)

/-- Endpoint vertices of a list of edge write targets, in order. -/
def edgeEndpoints (targets : List (Nat × Nat × List Nat)) : List Nat :=
  targets.flatMap fun t => [t.1, t.2.1]

/-- Modelled from the spec: the property store before any write — every
vertex has "an empty value and a token representing no prior write"
(spec section 4.6). -/
def initialGraphPropState : GraphPropState :=
  ⟨fun _ => 0, fun _ => [], fun _ => []⟩

theorem runLen_length_le (v : Nat) :
    ∀ l : List Nat, (runLen v l).2.length ≤ l.length := by
  intro l
  induction l with
  | nil => simp [runLen]
  | cons x xs ih =>
    by_cases h : x = v
    · simp only [runLen, if_pos h, List.length_cons]
      exact Nat.le_succ_of_le ih
    · simp [runLen, if_neg h]

theorem runLen_replicate_append (v : Nat) :
    ∀ l : List Nat, List.replicate (runLen v l).1 v ++ (runLen v l).2 = l := by
  intro l
  induction l with
  | nil => simp [runLen]
  | cons x xs ih =>
    by_cases h : x = v
    · subst h
      simp only [runLen, if_pos rfl, List.replicate_succ, List.cons_append]
      exact congrArg (x :: ·) ih
    · simp [runLen, if_neg h]

theorem rleDecode_rleEncode (l : List Nat) : rleDecode (rleEncode l) = l := by
  have main : ∀ (n : Nat) (l : List Nat), l.length ≤ n →
      rleDecode (rleEncode l) = l := by
    intro n
    induction n with
    | zero =>
      intro l h
      cases l with
      | nil => simp [rleEncode, rleDecode]
      | cons x xs => simp at h
    | succ n ih =>
      intro l h
      cases l with
      | nil => simp [rleEncode, rleDecode]
      | cons x xs =>
        have hlen : (runLen x xs).2.length ≤ n := by
          have h1 : (runLen x xs).2.length ≤ xs.length := runLen_length_le x xs
          simp only [List.length_cons] at h
          omega
        rw [rleEncode, rleDecode, ih _ hlen, List.replicate_succ,
          List.cons_append, runLen_replicate_append]
  exact main l.length l le_rfl

/-- C2: for every put operation (`put_gray3D`, `put_labels3D`) where some
component of the offset or of the dimensions is not an exact multiple of
the block edge length 32, the operation fails with `AlignmentError` and
no request reaches the transport. -/
theorem put_alignment_error_before_transport
    (sizes : Nat × Nat × Nat) (offset : Int × Int × Int)
    (t1 c1 t2 c2 : Option Bool)
    (h : ¬ (sizes.1 % BLOCK_EDGE = 0 ∧ sizes.2.1 % BLOCK_EDGE = 0 ∧
      sizes.2.2 % BLOCK_EDGE = 0 ∧ offset.1 % (BLOCK_EDGE : Int) = 0 ∧
      offset.2.1 % (BLOCK_EDGE : Int) = 0 ∧
      offset.2.2 % (BLOCK_EDGE : Int) = 0)) :
    put_gray3D sizes offset t1 c1 =
      (Except.error ErrorType.AlignmentError, []) ∧
    put_labels3D sizes offset t2 c2 =
      (Except.error ErrorType.AlignmentError, []) := by
  have hb : blockAligned sizes offset = false := by
    cases hba : blockAligned sizes offset
    · rfl
    · exfalso
      apply h
      simp only [blockAligned, Bool.and_eq_true, decide_eq_true_eq] at hba
      tauto
  exact ⟨by simp [put_gray3D, put_volume, hb], by simp [put_labels3D, put_volume, hb]⟩

theorem put_alignment_error_before_transport_witness :
    put_gray3D (33, 32, 32) (0, 0, 0) none none =
      (Except.error ErrorType.AlignmentError, []) ∧
    put_labels3D (33, 32, 32) (0, 0, 0) none none =
      (Except.error ErrorType.AlignmentError, []) :=
  put_alignment_error_before_transport (33, 32, 32) (0, 0, 0)
    none none none none (by decide)

/-- C3 counterexample: a put request that is both block-misaligned and
over the element-count bound fails with `AlignmentError`, not
`InvalidArgument`, because put alignment is validated first. -/
theorem volume_invalid_argument_counterexample :
    INT_MAX / 8 < 33 * 4096 * 4096 ∧
    put_gray3D (33, 4096, 4096) (32, 32, 32) none none =
      (Except.error ErrorType.AlignmentError, []) ∧
    ErrorType.AlignmentError ≠ ErrorType.InvalidArgument := by
  refine ⟨by norm_num [INT_MAX], ?_, by decide⟩
  have h : blockAligned (33, 4096, 4096) (32, 32, 32) = false := by decide
  simp [put_gray3D, put_volume, h]

/-- C3 (amended): a volume get request whose dims/offset/channels lengths
are not all equal, whose channels are not a permutation, or whose element
count exceeds `INT_MAX / 8` fails with `InvalidArgument` and issues no
transport request; a block-aligned put whose element count exceeds the
bound does the same.  (A misaligned put fails with `AlignmentError`
first.) -/
theorem volume_invalid_argument_before_transport :
    (∀ (sizes : List Nat) (offset : List Int) (channels : List Nat)
        (t c : Bool),
      (sizes.length ≠ offset.length ∨ sizes.length ≠ channels.length ∨
        (∃ ch ∈ channels, channels.length ≤ ch) ∨ ¬ channels.Nodup ∨
        INT_MAX / 8 < sizes.prod) →
      get_volume3D sizes offset channels t c =
        (Except.error ErrorType.InvalidArgument, [])) ∧
    (∀ (sizes : Nat × Nat × Nat) (offset : Int × Int × Int)
        (t c : Option Bool),
      blockAligned sizes offset = true →
      INT_MAX / 8 < sizes.1 * sizes.2.1 * sizes.2.2 →
      put_gray3D sizes offset t c =
        (Except.error ErrorType.InvalidArgument, []) ∧
      put_labels3D sizes offset t c =
        (Except.error ErrorType.InvalidArgument, [])) := by
  constructor
  · intro sizes offset channels t c h
    have hv : validate_volume sizes offset channels = false := by
      cases hval : validate_volume sizes offset channels
      · rfl
      · exfalso
        simp only [validate_volume, Bool.and_eq_true, decide_eq_true_eq,
          List.all_eq_true] at hval
        obtain ⟨⟨⟨⟨h1, h2⟩, h3⟩, h4⟩, h5⟩ := hval
        rcases h with h | h | ⟨ch, hch, hge⟩ | h | h
        · exact h h1
        · exact h h2
        · exact absurd (h3 ch hch) (by omega)
        · exact h h4
        · omega
    simp [get_volume3D, hv]
  · intro sizes offset t c halign hcount
    have hle : ¬ (sizes.1 * sizes.2.1 * sizes.2.2 ≤ INT_MAX / 8) :=
      Nat.not_le.mpr hcount
    exact ⟨by simp [put_gray3D, put_volume, halign, hle],
      by simp [put_labels3D, put_volume, halign, hle]⟩

theorem volume_invalid_argument_before_transport_witness :
    get_volume3D [1, 2] [0] [0, 1] true false =
      (Except.error ErrorType.InvalidArgument, []) ∧
    put_gray3D (32, 4096, 4096) (0, 0, 0) none none =
      (Except.error ErrorType.InvalidArgument, []) :=
  ⟨volume_invalid_argument_before_transport.1 [1, 2] [0] [0, 1] true false
      (by decide),
    (volume_invalid_argument_before_transport.2 (32, 4096, 4096) (0, 0, 0)
      none none (by decide) (by norm_num [INT_MAX])).1⟩

/-- C4: encoding a buffer whose byte length equals `product(Dims) *
element_size` through the volume codec and decoding the resulting wire
form yields the original buffer, both with compression enabled and
disabled. -/
theorem codec_round_trip (buffer sizes : List Nat) (elemSize : Nat)
    (compress : Bool) (h : buffer.length = sizes.prod * elemSize) :
    (encode_volume buffer sizes elemSize compress).bind
      (fun w => decode_volume w sizes elemSize) = Except.ok buffer := by
  cases compress
  · simp [encode_volume, h, decode_volume, Except.bind]
  · simp [encode_volume, h, decode_volume, Except.bind, rleDecode_rleEncode]

theorem codec_round_trip_witness :
    (encode_volume [7, 7, 7, 2] [2, 2] 1 true).bind
      (fun w => decode_volume w [2, 2] 1) = Except.ok [7, 7, 7, 2] ∧
    (encode_volume [7, 7, 7, 2] [2, 2] 1 false).bind
      (fun w => decode_volume w [2, 2] 1) = Except.ok [7, 7, 7, 2] :=
  ⟨codec_round_trip [7, 7, 7, 2] [2, 2] 1 true (by decide),
    codec_round_trip [7, 7, 7, 2] [2, 2] 1 false (by decide)⟩

/-- C9: `body_exists` is true exactly when the coarse block footprint is
non-empty, and for a body with no stored blocks `get_coarse_body` returns
`false` together with an empty block list — a normal negative result, not
an error. -/
theorem body_absence_is_negative_result (footprint : Nat → List BlockXYZ)
    (bodyid : Nat) :
    (body_exists footprint bodyid = true ↔ footprint bodyid ≠ []) ∧
    (get_coarse_body footprint bodyid).1 = body_exists footprint bodyid ∧
    (get_coarse_body footprint bodyid).2 = footprint bodyid ∧
    (footprint bodyid = [] →
      get_coarse_body footprint bodyid = (false, [])) := by
  refine ⟨?_, rfl, rfl, ?_⟩
  · simp [body_exists, List.isEmpty_iff]
  · intro h
    simp [get_coarse_body, h]

theorem body_absence_is_negative_result_witness :
    get_coarse_body (fun _ => ([] : List BlockXYZ)) 42 = (false, []) :=
  (body_absence_is_negative_result (fun _ => []) 42).2.2.2 rfl

/-- C7: `roi_ptquery` returns one boolean per input point, in input
order: the i-th output states whether the block containing the i-th input
point lies in the ROI, for any mix of points including duplicates. -/
theorem roi_ptquery_order_preserving (roi : List BlockXYZ)
    (points : List PointXYZ) :
    (roi_ptquery roi points).length = points.length ∧
    ∀ i : Fin points.length,
      (roi_ptquery roi points).get
          (Fin.cast (List.length_map points _).symm i) =
        decide (blockFromPoint (points.get i) ∈ roi) := by
  constructor
  · simp [roi_ptquery]
  · intro i
    simp [roi_ptquery, List.get_eq_getElem, List.getElem_map]

/-- C8: `update_vertices` / `update_edges` create a missing target with
the given weight and increment an existing target's weight by the given
weight; in particular two updates with weight 1 on a new vertex store
weight 2. -/
theorem update_weight_accumulates :
    (∀ (σ : Nat → Option ℚ) v w, σ v = none →
      update_vertices [(v, w)] σ v = some w) ∧
    (∀ (σ : Nat → Option ℚ) v w w0, σ v = some w0 →
      update_vertices [(v, w)] σ v = some (w0 + w)) ∧
    (∀ (σ : Nat → Option ℚ) v, σ v = none →
      update_vertices [(v, 1)] (update_vertices [(v, 1)] σ) v = some 2) ∧
    (∀ (σ : Nat × Nat → Option ℚ) e w, σ e = none →
      update_edges [(e, w)] σ e = some w) ∧
    (∀ (σ : Nat × Nat → Option ℚ) e w w0, σ e = some w0 →
      update_edges [(e, w)] σ e = some (w0 + w)) := by
  refine ⟨?_, ?_, ?_, ?_, ?_⟩
  · intro σ v w h
    simp [update_vertices, h]
  · intro σ v w w0 h
    simp [update_vertices, h]
  · intro σ v h
    simp [update_vertices, h]
    norm_num
  · intro σ e w h
    simp [update_edges, h]
  · intro σ e w w0 h
    simp [update_edges, h]

theorem update_weight_accumulates_witness :
    update_vertices [(9, 1)] (update_vertices [(9, 1)] (fun _ => none)) 9 =
      some 2 ∧
    update_edges [((1, 2), 5)] (fun _ => none) (1, 2) = some 5 :=
  ⟨update_weight_accumulates.2.2.1 (fun _ => none) 9 rfl,
    update_weight_accumulates.2.2.2.1 (fun _ => none) (1, 2) 5 rfl⟩

theorem zyxLt_of_le_of_ne {a b : BlockXYZ} (h1 : zyxLe a b) (h2 : a ≠ b) :
    zyxLt a b := by
  obtain ⟨ax, ay, az⟩ := a
  obtain ⟨bx, by_, bz⟩ := b
  simp only [zyxLe] at h1
  simp only [ne_eq, BlockXYZ.mk.injEq, not_and] at h2
  simp only [zyxLt]
  by_cases hx : ax = bx
  · by_cases hy : ay = by_
    · have hz : ¬ az = bz := h2 hx hy
      omega
    · omega
  · omega

/-- C5: `get_roi` returns exactly the blocks of the ROI, strictly sorted
ascending by Z, then Y, then X, and the result does not depend on the
order in which blocks were supplied to prior `post_roi` calls. -/
theorem get_roi_sorted_and_deterministic :
    (∀ (state : List BlockXYZ) (b : BlockXYZ),
      b ∈ get_roi state ↔ b ∈ state) ∧
    (∀ state : List BlockXYZ, (get_roi state).Pairwise zyxLt) ∧
    (∀ (init l1 l2 : List BlockXYZ), l1.Perm l2 →
      get_roi (post_roi init l1) = get_roi (post_roi init l2)) := by
  refine ⟨?_, ?_, ?_⟩
  · intro state b
    rw [get_roi, (List.perm_insertionSort zyxLe state.dedup).mem_iff,
      List.mem_dedup]
  · intro state
    have hs : List.Sorted zyxLe (get_roi state) :=
      List.sorted_insertionSort zyxLe state.dedup
    have hnd : (get_roi state).Nodup :=
      (List.perm_insertionSort zyxLe state.dedup).nodup_iff.mpr
        state.nodup_dedup
    exact (List.Pairwise.and hs hnd).imp fun h => zyxLt_of_le_of_ne h.1 h.2
  · intro init l1 l2 hp
    have hperm : (post_roi init l1).dedup.Perm (post_roi init l2).dedup :=
      (hp.append_left init).dedup
    exact List.eq_of_perm_of_sorted
      (((List.perm_insertionSort zyxLe _).trans hperm).trans
        (List.perm_insertionSort zyxLe _).symm)
      (List.sorted_insertionSort zyxLe _) (List.sorted_insertionSort zyxLe _)

theorem get_roi_sorted_and_deterministic_witness :
    get_roi (post_roi [] [⟨1, 0, 0⟩, ⟨0, 0, 0⟩]) =
      get_roi (post_roi [] [⟨0, 0, 0⟩, ⟨1, 0, 0⟩]) :=
  get_roi_sorted_and_deterministic.2.2 [] [⟨1, 0, 0⟩, ⟨0, 0, 0⟩]
    [⟨0, 0, 0⟩, ⟨1, 0, 0⟩]
    (List.Perm.swap (⟨0, 0, 0⟩ : BlockXYZ) (⟨1, 0, 0⟩ : BlockXYZ) [])

theorem grid_cell_le {ps : Int} (hpos : 0 < ps) (p : Int) :
    ps * (p / ps) ≤ p ∧ p < ps * (p / ps) + ps := by
  have h1 := Int.ediv_add_emod p ps
  have h2 := Int.emod_nonneg p (ne_of_gt hpos)
  have h3 := Int.emod_lt_of_pos p hpos
  constructor <;> linarith

theorem grid_cell_unique {ps k p : Int} (hpos : 0 < ps) (h1 : ps * k ≤ p)
    (h2 : p < ps * k + ps) : ps * k = ps * (p / ps) := by
  have hb := grid_cell_le hpos p
  have hk : k < p / ps + 1 := by
    have hm : ps * k < ps * (p / ps + 1) := by
      rw [mul_add, mul_one]
      linarith
    exact lt_of_mul_lt_mul_left hm (le_of_lt hpos)
  have hq : p / ps < k + 1 := by
    have hm : ps * (p / ps) < ps * (k + 1) := by
      rw [mul_add, mul_one]
      linarith
    exact lt_of_mul_lt_mul_left hm (le_of_lt hpos)
  have hkq : k = p / ps := by omega
  rw [hkq]

theorem cellOf_eq_iff {ps : Nat} (hps : 1 ≤ ps) (b s : BlockXYZ) :
    cellOf ps b = s ↔
      (((ps : Int) ∣ s.x ∧ (ps : Int) ∣ s.y ∧ (ps : Int) ∣ s.z) ∧
        inCube ps s b) := by
  have hpos : (0 : Int) < (ps : Int) := by omega
  constructor
  · rintro rfl
    refine ⟨⟨dvd_mul_right _ _, dvd_mul_right _ _, dvd_mul_right _ _⟩, ?_⟩
    have hx := grid_cell_le hpos b.x
    have hy := grid_cell_le hpos b.y
    have hz := grid_cell_le hpos b.z
    exact ⟨⟨hx.1, hx.2⟩, ⟨hy.1, hy.2⟩, ⟨hz.1, hz.2⟩⟩
  · rintro ⟨⟨⟨kx, hkx⟩, ⟨ky, hky⟩, ⟨kz, hkz⟩⟩, hcube⟩
    obtain ⟨⟨hx1, hx2⟩, ⟨hy1, hy2⟩, ⟨hz1, hz2⟩⟩ := hcube
    apply BlockXYZ.ext
    · dsimp only [cellOf]
      rw [hkx] at hx1 hx2
      rw [hkx]
      exact (grid_cell_unique hpos hx1 hx2).symm
    · dsimp only [cellOf]
      rw [hky] at hy1 hy2
      rw [hky]
      exact (grid_cell_unique hpos hy1 hy2).symm
    · dsimp only [cellOf]
      rw [hkz] at hz1 hz2
      rw [hkz]
      exact (grid_cell_unique hpos hz1 hz2).symm

theorem sum_map_const_on_range {n c : Nat} (f : Nat → Nat)
    (h : ∀ i < n, f i = c) : ((List.range n).map f).sum = n * c := by
  have he : (List.range n).map f = List.replicate n c := by
    refine List.eq_replicate_iff.mpr ⟨by simp, ?_⟩
    intro b hb
    obtain ⟨i, hi, rfl⟩ := List.mem_map.mp hb
    exact h i (List.mem_range.mp hi)
  rw [he, List.sum_replicate, smul_eq_mul]

theorem mem_fullCubeRoi (ps : Nat) (b : BlockXYZ) :
    b ∈ fullCubeRoi ps ↔
      0 ≤ b.x ∧ b.x < ps ∧ 0 ≤ b.y ∧ b.y < ps ∧ 0 ≤ b.z ∧ b.z < ps := by
  constructor
  · intro h
    obtain ⟨z, hz, h2⟩ := List.mem_flatMap.mp h
    obtain ⟨y, hy, h3⟩ := List.mem_flatMap.mp h2
    obtain ⟨x, hx, heq⟩ := List.mem_map.mp h3
    have hz2 := List.mem_range.mp hz
    have hy2 := List.mem_range.mp hy
    have hx2 := List.mem_range.mp hx
    have e1 : (x : Int) = b.x := by rw [← heq]
    have e2 : (y : Int) = b.y := by rw [← heq]
    have e3 : (z : Int) = b.z := by rw [← heq]
    refine ⟨?_, ?_, ?_, ?_, ?_, ?_⟩ <;> omega
  · rintro ⟨h1, h2, h3, h4, h5, h6⟩
    refine List.mem_flatMap.mpr ⟨b.z.toNat, List.mem_range.mpr (by omega),
      List.mem_flatMap.mpr ⟨b.y.toNat, List.mem_range.mpr (by omega),
        List.mem_map.mpr ⟨b.x.toNat, List.mem_range.mpr (by omega), ?_⟩⟩⟩
    apply BlockXYZ.ext <;> dsimp only <;> omega

theorem length_fullCubeRoi (ps : Nat) : (fullCubeRoi ps).length = ps ^ 3 := by
  have hinner : ∀ z : Nat, ((List.range ps).flatMap fun (y : Nat) =>
      (List.range ps).map fun (x : Nat) =>
        (⟨(x : Int), (y : Int), (z : Int)⟩ : BlockXYZ)).length = ps * ps := by
    intro z
    rw [List.length_flatMap]
    exact sum_map_const_on_range _ (fun j _ => by
      dsimp only [Function.comp]
      rw [List.length_map, List.length_range])
  rw [fullCubeRoi, List.length_flatMap]
  have h2 : ((List.range ps).map (List.length ∘ fun (z : Nat) =>
      (List.range ps).flatMap fun (y : Nat) =>
        (List.range ps).map fun (x : Nat) =>
          (⟨(x : Int), (y : Int), (z : Int)⟩ : BlockXYZ))).sum =
        ps * (ps * ps) :=
    sum_map_const_on_range _ (fun i _ => by
      dsimp only [Function.comp]
      exact hinner i)
  rw [h2]
  ring

theorem nodup_fullCubeRoi (ps : Nat) : (fullCubeRoi ps).Nodup := by
  refine List.nodup_flatMap.mpr ⟨?_, ?_⟩
  · intro z _
    refine List.nodup_flatMap.mpr ⟨?_, ?_⟩
    · intro y _
      have hinj : Function.Injective
          (fun (x : Nat) =>
            (⟨(x : Int), (y : Int), (z : Int)⟩ : BlockXYZ)) := by
        intro a b h
        injection h with e1 e2 e3
        omega
      exact List.Nodup.map hinj (List.nodup_range ps)
    · refine (List.nodup_range ps).imp ?_
      intro a b hab c hc1 hc2
      obtain ⟨x1, _, he1⟩ := List.mem_map.mp hc1
      obtain ⟨x2, _, he2⟩ := List.mem_map.mp hc2
      rw [← he1] at he2
      injection he2 with e1 e2 e3
      exact hab (by omega)
  · refine (List.nodup_range ps).imp ?_
    intro a b hab c hc1 hc2
    obtain ⟨y1, _, hm1⟩ := List.mem_flatMap.mp hc1
    obtain ⟨y2, _, hm2⟩ := List.mem_flatMap.mp hc2
    obtain ⟨x1, _, he1⟩ := List.mem_map.mp hm1
    obtain ⟨x2, _, he2⟩ := List.mem_map.mp hm2
    rw [← he1] at he2
    injection he2 with e1 e2 e3
    exact hab (by omega)

theorem dedup_replicate_succ {α : Type} [DecidableEq α] (n : Nat) (a : α) :
    (List.replicate (n + 1) a).dedup = [a] := by
  induction n with
  | zero => simp
  | succ k ih =>
    rw [List.replicate_succ, List.dedup_cons_of_mem (by simp)]
    exact ih

/-- C6: for `partition_size ≥ 1`, `get_roi_partition` emits a substack
exactly for the grid cubes intersecting at least one ROI block, and the
packing factor equals (ROI block count) / (substack count ×
partition_size³); an ROI that is exactly one full partition cube gives
packing factor 1, and an empty ROI gives an empty substack list and
packing factor 0 (a defined value). -/
theorem get_roi_partition_spec :
    (∀ (state : List BlockXYZ) (ps : Nat) (substacks : List BlockXYZ)
        (pf : ℚ),
      1 ≤ ps →
      get_roi_partition state ps = Except.ok (substacks, pf) →
      ((∀ s, s ∈ substacks ↔
          (((ps : Int) ∣ s.x ∧ (ps : Int) ∣ s.y ∧ (ps : Int) ∣ s.z) ∧
            ∃ b ∈ state, inCube ps s b)) ∧
        pf = (if substacks.length = 0 then 0
          else (state.dedup.length : ℚ) /
            ((substacks.length : ℚ) * (ps : ℚ) ^ 3)))) ∧
    (∀ ps : Nat, 1 ≤ ps →
      get_roi_partition (fullCubeRoi ps) ps = Except.ok ([⟨0, 0, 0⟩], 1)) ∧
    (∀ ps : Nat, 1 ≤ ps → get_roi_partition [] ps = Except.ok ([], 0)) := by
  refine ⟨?_, ?_, ?_⟩
  · intro state ps ss pf hps heq
    have hps0 : ps ≠ 0 := by omega
    rw [get_roi_partition, if_neg hps0] at heq
    have heq2 := Except.ok.inj heq
    rw [Prod.mk.injEq] at heq2
    obtain ⟨hA, hB⟩ := heq2
    constructor
    · intro s
      rw [← hA, (List.perm_insertionSort zyxLe _).mem_iff, List.mem_dedup,
        List.mem_map]
      constructor
      · rintro ⟨b, hb, hcell⟩
        have hc := (cellOf_eq_iff hps b s).mp hcell
        exact ⟨hc.1, b, hb, hc.2⟩
      · rintro ⟨hal, b, hb, hcube⟩
        exact ⟨b, hb, (cellOf_eq_iff hps b s).mpr ⟨hal, hcube⟩⟩
    · rw [← hB, ← hA,
        (List.perm_insertionSort zyxLe
          ((state.map (cellOf ps)).dedup)).length_eq]
  · intro ps hps
    have hps0 : ps ≠ 0 := by omega
    obtain ⟨m, hm⟩ : ∃ m, ps ^ 3 = m + 1 := by
      have h1 : 0 < ps ^ 3 := pow_pos (by omega) 3
      exact ⟨ps ^ 3 - 1, by omega⟩
    have hcell : ∀ b ∈ fullCubeRoi ps, cellOf ps b = (⟨0, 0, 0⟩ : BlockXYZ) := by
      intro b hb
      obtain ⟨h1, h2, h3, h4, h5, h6⟩ := (mem_fullCubeRoi ps b).mp hb
      apply BlockXYZ.ext
      · dsimp only [cellOf]
        rw [Int.ediv_eq_zero_of_lt h1 h2, mul_zero]
      · dsimp only [cellOf]
        rw [Int.ediv_eq_zero_of_lt h3 h4, mul_zero]
      · dsimp only [cellOf]
        rw [Int.ediv_eq_zero_of_lt h5 h6, mul_zero]
    have hmap : (fullCubeRoi ps).map (cellOf ps) =
        List.replicate (ps ^ 3) ⟨0, 0, 0⟩ := by
      refine List.eq_replicate_iff.mpr ⟨?_, ?_⟩
      · rw [List.length_map, length_fullCubeRoi]
      · intro c hc
        obtain ⟨b, hb, rfl⟩ := List.mem_map.mp hc
        exact hcell b hb
    have hded : ((fullCubeRoi ps).map (cellOf ps)).dedup = [⟨0, 0, 0⟩] := by
      rw [hmap, hm, dedup_replicate_succ]
    have hdedfull : (fullCubeRoi ps).dedup = fullCubeRoi ps :=
      List.dedup_eq_self.mpr (nodup_fullCubeRoi ps)
    have hne : ((ps : ℚ)) ^ 3 ≠ 0 := pow_ne_zero 3 (by exact_mod_cast hps0)
    have hsort : List.insertionSort zyxLe [(⟨0, 0, 0⟩ : BlockXYZ)] =
        [⟨0, 0, 0⟩] := rfl
    have hlen1 : ([(⟨0, 0, 0⟩ : BlockXYZ)]).length = 1 := rfl
    rw [get_roi_partition, if_neg hps0, hded, hdedfull, length_fullCubeRoi,
      hsort, hlen1]
    simp only [if_neg Nat.one_ne_zero, Nat.cast_one, one_mul, Nat.cast_pow]
    rw [div_self hne]
  · intro ps hps
    have hps0 : ps ≠ 0 := by omega
    rw [get_roi_partition, if_neg hps0]
    rfl

theorem get_roi_partition_spec_witness :
    get_roi_partition (fullCubeRoi 2) 2 = Except.ok ([⟨0, 0, 0⟩], 1) ∧
    get_roi_partition [] 3 = Except.ok ([], 0) ∧
    ((⟨0, 0, 0⟩ : BlockXYZ) ∈ ([] : List BlockXYZ) ↔
      (((1 : Nat) : Int) ∣ (⟨0, 0, 0⟩ : BlockXYZ).x ∧
          ((1 : Nat) : Int) ∣ (⟨0, 0, 0⟩ : BlockXYZ).y ∧
          ((1 : Nat) : Int) ∣ (⟨0, 0, 0⟩ : BlockXYZ).z) ∧
        ∃ b ∈ ([] : List BlockXYZ), inCube 1 ⟨0, 0, 0⟩ b) :=
  ⟨get_roi_partition_spec.2.1 2 (by omega),
    get_roi_partition_spec.2.2 3 (by omega),
    (get_roi_partition_spec.1 [] 1 [] 0 (by omega)
      (get_roi_partition_spec.2.2 1 (by omega))).1 ⟨0, 0, 0⟩⟩

/-- C10: with the `compress` argument omitted, the grayscale volume
operations default to `compress = false` while the label volume
operations default to `compress = true`, matching the header's default
arguments. -/
theorem default_compress_differs_by_width :
    (∀ sizes offset channels t,
      get_gray3D sizes offset channels t none =
        get_gray3D sizes offset channels t (some false)) ∧
    (∀ sizes offset channels t,
      get_labels3D sizes offset channels t none =
        get_labels3D sizes offset channels t (some true)) ∧
    (∀ sizes offset t,
      put_gray3D sizes offset t none = put_gray3D sizes offset t (some false)) ∧
    (∀ sizes offset t,
      put_labels3D sizes offset t none =
        put_labels3D sizes offset t (some true)) :=
  ⟨fun _ _ _ _ => rfl, fun _ _ _ _ => rfl, fun _ _ _ => rfl, fun _ _ _ => rfl⟩

theorem svp_frame (trans : Nat → Nat) (targets : List (Nat × List Nat)) :
    ∀ (σ : GraphPropState) (v : Nat), v ∉ targets.map Prod.fst →
      (set_vertex_properties trans σ targets).1.token v = σ.token v ∧
      (set_vertex_properties trans σ targets).1.vprop v = σ.vprop v := by
  induction targets with
  | nil => intro σ v _; exact ⟨rfl, rfl⟩
  | cons hd tl ih =>
    intro σ v hv
    obtain ⟨w, d⟩ := hd
    simp only [List.map_cons, List.mem_cons, not_or] at hv
    by_cases h : trans w = σ.token w
    · simp only [set_vertex_properties, if_pos h]
      have hr := ih
        { σ with
          token := fun u => if u = w then σ.token w + 1 else σ.token u,
          vprop := fun u => if u = w then d else σ.vprop u } v hv.2
      refine ⟨?_, ?_⟩
      · rw [hr.1]
        simp [hv.1]
      · rw [hr.2]
        simp [hv.1]
    · simp only [set_vertex_properties, if_neg h]
      exact ih σ v hv.2

theorem svp_leftover_subset (trans : Nat → Nat)
    (targets : List (Nat × List Nat)) :
    ∀ σ : GraphPropState,
      (set_vertex_properties trans σ targets).2 ⊆ targets.map Prod.fst := by
  induction targets with
  | nil => intro σ; simp [set_vertex_properties]
  | cons hd tl ih =>
    intro σ
    obtain ⟨w, d⟩ := hd
    by_cases h : trans w = σ.token w
    · simp only [set_vertex_properties, if_pos h, List.map_cons]
      exact (ih _).trans (List.subset_cons_self _ _)
    · simp only [set_vertex_properties, if_neg h, List.map_cons]
      exact List.cons_subset_cons w (ih σ)

theorem svp_spec (trans : Nat → Nat) (targets : List (Nat × List Nat)) :
    ∀ (σ : GraphPropState) (v : Nat) (d : List Nat),
      (targets.map Prod.fst).Nodup → (v, d) ∈ targets →
      ((trans v = σ.token v →
          (set_vertex_properties trans σ targets).1.vprop v = d ∧
          (set_vertex_properties trans σ targets).1.token v = σ.token v + 1 ∧
          v ∉ (set_vertex_properties trans σ targets).2) ∧
       (trans v ≠ σ.token v →
          (set_vertex_properties trans σ targets).1.vprop v = σ.vprop v ∧
          (set_vertex_properties trans σ targets).1.token v = σ.token v ∧
          v ∈ (set_vertex_properties trans σ targets).2)) := by
  induction targets with
  | nil =>
    intro σ v d _ hm
    simp at hm
  | cons hd tl ih =>
    intro σ v d hnd hm
    obtain ⟨w, e⟩ := hd
    simp only [List.map_cons, List.nodup_cons] at hnd
    rcases List.mem_cons.mp hm with heq | hmem
    · injection heq with h1 h2
      subst h1
      subst h2
      constructor
      · intro hmatch
        simp only [set_vertex_properties, if_pos hmatch]
        have hfr := svp_frame trans tl
          { σ with
            token := fun u => if u = v then σ.token v + 1 else σ.token u,
            vprop := fun u => if u = v then d else σ.vprop u } v hnd.1
        refine ⟨?_, ?_, ?_⟩
        · rw [hfr.2]
          simp
        · rw [hfr.1]
          simp
        · intro hin
          exact hnd.1 (svp_leftover_subset trans tl _ hin)
      · intro hmiss
        simp only [set_vertex_properties, if_neg hmiss]
        have hfr := svp_frame trans tl σ v hnd.1
        exact ⟨hfr.2, hfr.1, List.mem_cons_self _ _⟩
    · have hvtl : v ∈ tl.map Prod.fst := List.mem_map_of_mem Prod.fst hmem
      have hvw : ¬ v = w := fun h => hnd.1 (h ▸ hvtl)
      by_cases hmatch : trans w = σ.token w
      · simp only [set_vertex_properties, if_pos hmatch]
        have ih2 := ih
          { σ with
            token := fun u => if u = w then σ.token w + 1 else σ.token u,
            vprop := fun u => if u = w then e else σ.vprop u } v d hnd.2 hmem
        simp only [if_neg hvw] at ih2
        exact ih2
      · simp only [set_vertex_properties, if_neg hmatch]
        have ih2 := ih σ v d hnd.2 hmem
        constructor
        · intro h
          obtain ⟨a, b, c⟩ := ih2.1 h
          refine ⟨a, b, fun hin => ?_⟩
          rcases List.mem_cons.mp hin with h1 | h2
          · exact hvw h1
          · exact c h2
        · intro h
          obtain ⟨a, b, c⟩ := ih2.2 h
          exact ⟨a, b, List.mem_cons_of_mem _ c⟩

theorem mem_edgeEndpoints_left {a b : Nat} {d : List Nat}
    {targets : List (Nat × Nat × List Nat)} (h : (a, b, d) ∈ targets) :
    a ∈ edgeEndpoints targets :=
  List.mem_flatMap.mpr ⟨(a, b, d), h, by simp⟩

theorem mem_edgeEndpoints_right {a b : Nat} {d : List Nat}
    {targets : List (Nat × Nat × List Nat)} (h : (a, b, d) ∈ targets) :
    b ∈ edgeEndpoints targets :=
  List.mem_flatMap.mpr ⟨(a, b, d), h, by simp⟩

theorem edge_key_mem_endpoints {x y : Nat}
    {targets : List (Nat × Nat × List Nat)}
    (h : (x, y) ∈ targets.map fun t => (t.1, t.2.1)) :
    x ∈ edgeEndpoints targets := by
  obtain ⟨t, ht, heq⟩ := List.mem_map.mp h
  refine List.mem_flatMap.mpr ⟨t, ht, ?_⟩
  injection heq with h1 h2
  subst h1
  simp

theorem sep_endpoints_cons {w1 w2 : Nat} {e : List Nat}
    {tl : List (Nat × Nat × List Nat)}
    (hnd : (edgeEndpoints ((w1, w2, e) :: tl)).Nodup) :
    w1 ≠ w2 ∧ w1 ∉ edgeEndpoints tl ∧ w2 ∉ edgeEndpoints tl ∧
      (edgeEndpoints tl).Nodup := by
  have h : ([w1, w2] ++ edgeEndpoints tl).Nodup := hnd
  rw [List.nodup_append] at h
  obtain ⟨h1, h2, h3⟩ := h
  refine ⟨?_, ?_, ?_, h2⟩
  · simp only [List.nodup_cons, List.mem_singleton] at h1
    exact h1.1
  · exact fun hin => h3 (by simp) hin
  · exact fun hin => h3 (by simp) hin

theorem sep_token_frame (trans : Nat → Nat)
    (targets : List (Nat × Nat × List Nat)) :
    ∀ (σ : GraphPropState) (v : Nat), v ∉ edgeEndpoints targets →
      (set_edge_properties trans σ targets).1.token v = σ.token v := by
  induction targets with
  | nil => intro σ v _; rfl
  | cons hd tl ih =>
    intro σ v hv
    obtain ⟨w1, w2, e⟩ := hd
    have hv1 : ¬ v = w1 := fun h => hv (by rw [h]; exact mem_edgeEndpoints_left (List.mem_cons_self _ _))
    have hv2 : ¬ v = w2 := fun h => hv (by rw [h]; exact mem_edgeEndpoints_right (List.mem_cons_self _ _))
    have hvtl : v ∉ edgeEndpoints tl := by
      intro hin
      apply hv
      have : edgeEndpoints ((w1, w2, e) :: tl) = [w1, w2] ++ edgeEndpoints tl := rfl
      rw [this]
      exact List.mem_append_right _ hin
    by_cases h : trans w1 = σ.token w1 ∧ trans w2 = σ.token w2
    · simp only [set_edge_properties, if_pos h]
      have hr := ih
        { σ with
          token := fun u => if u = w1 ∨ u = w2 then σ.token u + 1 else σ.token u,
          eprop := fun q => if q = (w1, w2) then e else σ.eprop q } v hvtl
      rw [hr]
      simp [hv1, hv2]
    · simp only [set_edge_properties, if_neg h]
      exact ih σ v hvtl

theorem sep_eprop_frame (trans : Nat → Nat)
    (targets : List (Nat × Nat × List Nat)) :
    ∀ (σ : GraphPropState) (a b : Nat), a ∉ edgeEndpoints targets →
      (set_edge_properties trans σ targets).1.eprop (a, b) =
        σ.eprop (a, b) := by
  induction targets with
  | nil => intro σ a b _; rfl
  | cons hd tl ih =>
    intro σ a b ha
    obtain ⟨w1, w2, e⟩ := hd
    have ha1 : ¬ a = w1 := fun h => ha (by rw [h]; exact mem_edgeEndpoints_left (List.mem_cons_self _ _))
    have hatl : a ∉ edgeEndpoints tl := by
      intro hin
      apply ha
      have : edgeEndpoints ((w1, w2, e) :: tl) = [w1, w2] ++ edgeEndpoints tl := rfl
      rw [this]
      exact List.mem_append_right _ hin
    have hkey : ¬ ((a, b) = (w1, w2)) := by
      intro hh
      injection hh with hh1 hh2
      exact ha1 hh1
    by_cases h : trans w1 = σ.token w1 ∧ trans w2 = σ.token w2
    · simp only [set_edge_properties, if_pos h]
      have hr := ih
        { σ with
          token := fun u => if u = w1 ∨ u = w2 then σ.token u + 1 else σ.token u,
          eprop := fun q => if q = (w1, w2) then e else σ.eprop q } a b hatl
      rw [hr]
      simp [hkey]
    · simp only [set_edge_properties, if_neg h]
      exact ih σ a b hatl

theorem sep_leftover_subset (trans : Nat → Nat)
    (targets : List (Nat × Nat × List Nat)) :
    ∀ σ : GraphPropState,
      (set_edge_properties trans σ targets).2 ⊆
        targets.map fun t => (t.1, t.2.1) := by
  induction targets with
  | nil => intro σ; simp [set_edge_properties]
  | cons hd tl ih =>
    intro σ
    obtain ⟨w1, w2, e⟩ := hd
    by_cases h : trans w1 = σ.token w1 ∧ trans w2 = σ.token w2
    · simp only [set_edge_properties, if_pos h, List.map_cons]
      exact (ih _).trans (List.subset_cons_self _ _)
    · simp only [set_edge_properties, if_neg h, List.map_cons]
      exact List.cons_subset_cons _ (ih σ)

theorem sep_spec (trans : Nat → Nat)
    (targets : List (Nat × Nat × List Nat)) :
    ∀ (σ : GraphPropState) (a b : Nat) (d : List Nat),
      (edgeEndpoints targets).Nodup → (a, b, d) ∈ targets →
      ((trans a = σ.token a ∧ trans b = σ.token b →
          (set_edge_properties trans σ targets).1.eprop (a, b) = d ∧
          (set_edge_properties trans σ targets).1.token a = σ.token a + 1 ∧
          (set_edge_properties trans σ targets).1.token b = σ.token b + 1 ∧
          (a, b) ∉ (set_edge_properties trans σ targets).2) ∧
       (¬ (trans a = σ.token a ∧ trans b = σ.token b) →
          (set_edge_properties trans σ targets).1.eprop (a, b) =
            σ.eprop (a, b) ∧
          (set_edge_properties trans σ targets).1.token a = σ.token a ∧
          (set_edge_properties trans σ targets).1.token b = σ.token b ∧
          (a, b) ∈ (set_edge_properties trans σ targets).2)) := by
  induction targets with
  | nil =>
    intro σ a b d _ hm
    simp at hm
  | cons hd tl ih =>
    intro σ a b d hnd hm
    obtain ⟨w1, w2, e⟩ := hd
    obtain ⟨hw12, hw1, hw2, hndtl⟩ := sep_endpoints_cons hnd
    rcases List.mem_cons.mp hm with heq | hmem
    · injection heq with h1 hrest
      injection hrest with h2 h3
      subst h1
      subst h2
      subst h3
      constructor
      · intro hmatch
        simp only [set_edge_properties, if_pos hmatch]
        have hfr1 := sep_token_frame trans tl
          { σ with
            token := fun u => if u = a ∨ u = b then σ.token u + 1 else σ.token u,
            eprop := fun q => if q = (a, b) then d else σ.eprop q } a hw1
        have hfr2 := sep_token_frame trans tl
          { σ with
            token := fun u => if u = a ∨ u = b then σ.token u + 1 else σ.token u,
            eprop := fun q => if q = (a, b) then d else σ.eprop q } b hw2
        have hfr3 := sep_eprop_frame trans tl
          { σ with
            token := fun u => if u = a ∨ u = b then σ.token u + 1 else σ.token u,
            eprop := fun q => if q = (a, b) then d else σ.eprop q } a b hw1
        refine ⟨?_, ?_, ?_, ?_⟩
        · rw [hfr3]
          simp
        · rw [hfr1]
          simp
        · rw [hfr2]
          simp
        · intro hin
          exact hw1 (edge_key_mem_endpoints (sep_leftover_subset trans tl _ hin))
      · intro hmiss
        simp only [set_edge_properties, if_neg hmiss]
        have hfr1 := sep_token_frame trans tl σ a hw1
        have hfr2 := sep_token_frame trans tl σ b hw2
        have hfr3 := sep_eprop_frame trans tl σ a b hw1
        exact ⟨hfr3, hfr1, hfr2, List.mem_cons_self _ _⟩
    · have hatl : a ∈ edgeEndpoints tl := mem_edgeEndpoints_left hmem
      have hbtl : b ∈ edgeEndpoints tl := mem_edgeEndpoints_right hmem
      have ha1 : ¬ a = w1 := fun h => hw1 (h ▸ hatl)
      have ha2 : ¬ a = w2 := fun h => hw2 (h ▸ hatl)
      have hb1 : ¬ b = w1 := fun h => hw1 (h ▸ hbtl)
      have hb2 : ¬ b = w2 := fun h => hw2 (h ▸ hbtl)
      have hor1 : ¬ (a = w1 ∨ a = w2) := by tauto
      have hor2 : ¬ (b = w1 ∨ b = w2) := by tauto
      have hkey : ¬ ((a, b) = (w1, w2)) := by
        intro hh
        injection hh with hh1 hh2
        exact ha1 hh1
      by_cases hmatch : trans w1 = σ.token w1 ∧ trans w2 = σ.token w2
      · simp only [set_edge_properties, if_pos hmatch]
        have ih2 := ih
          { σ with
            token := fun u => if u = w1 ∨ u = w2 then σ.token u + 1 else σ.token u,
            eprop := fun q => if q = (w1, w2) then e else σ.eprop q }
          a b d hndtl hmem
        simp only [if_neg hor1, if_neg hor2, if_neg hkey] at ih2
        exact ih2
      · simp only [set_edge_properties, if_neg hmatch]
        have ih2 := ih σ a b d hndtl hmem
        constructor
        · intro h
          obtain ⟨p1, p2, p3, p4⟩ := ih2.1 h
          refine ⟨p1, p2, p3, fun hin => ?_⟩
          rcases List.mem_cons.mp hin with hx | hx
          · exact hkey hx
          · exact p4 hx
        · intro h
          obtain ⟨p1, p2, p3, p4⟩ := ih2.2 h
          exact ⟨p1, p2, p3, List.mem_cons_of_mem _ p4⟩

/-- C1: for every `set_properties` call (vertex or edge form) whose
targets' (endpoint) vertices are distinct, each target whose supplied
transaction token matches the stored token gets its write performed and
its stored token advanced, and is not reported leftover; each target with
a stale token (for an edge: either endpoint stale) is added to the
leftover list with its stored data unchanged. -/
theorem set_properties_token_protocol :
    (∀ (trans : Nat → Nat) (σ : GraphPropState)
        (targets : List (Nat × List Nat)) (v : Nat) (d : List Nat),
      (targets.map Prod.fst).Nodup → (v, d) ∈ targets →
      ((trans v = σ.token v →
          (set_vertex_properties trans σ targets).1.vprop v = d ∧
          (set_vertex_properties trans σ targets).1.token v = σ.token v + 1 ∧
          v ∉ (set_vertex_properties trans σ targets).2) ∧
       (trans v ≠ σ.token v →
          (set_vertex_properties trans σ targets).1.vprop v = σ.vprop v ∧
          (set_vertex_properties trans σ targets).1.token v = σ.token v ∧
          v ∈ (set_vertex_properties trans σ targets).2))) ∧
    (∀ (trans : Nat → Nat) (σ : GraphPropState)
        (targets : List (Nat × Nat × List Nat)) (a b : Nat) (d : List Nat),
      (edgeEndpoints targets).Nodup → (a, b, d) ∈ targets →
      ((trans a = σ.token a ∧ trans b = σ.token b →
          (set_edge_properties trans σ targets).1.eprop (a, b) = d ∧
          (set_edge_properties trans σ targets).1.token a = σ.token a + 1 ∧
          (set_edge_properties trans σ targets).1.token b = σ.token b + 1 ∧
          (a, b) ∉ (set_edge_properties trans σ targets).2) ∧
       (¬ (trans a = σ.token a ∧ trans b = σ.token b) →
          (set_edge_properties trans σ targets).1.eprop (a, b) =
            σ.eprop (a, b) ∧
          (set_edge_properties trans σ targets).1.token a = σ.token a ∧
          (set_edge_properties trans σ targets).1.token b = σ.token b ∧
          (a, b) ∈ (set_edge_properties trans σ targets).2))) :=
  ⟨fun trans σ targets v d h1 h2 => svp_spec trans targets σ v d h1 h2,
    fun trans σ targets a b d h1 h2 => sep_spec trans targets σ a b d h1 h2⟩

theorem set_properties_token_protocol_witness :
    (set_vertex_properties (fun v => if v = 2 then 5 else 0)
        initialGraphPropState [(1, [7]), (2, [9])]).1.vprop 1 = [7] ∧
    (set_vertex_properties (fun v => if v = 2 then 5 else 0)
        initialGraphPropState [(1, [7]), (2, [9])]).1.token 1 = 1 ∧
    1 ∉ (set_vertex_properties (fun v => if v = 2 then 5 else 0)
        initialGraphPropState [(1, [7]), (2, [9])]).2 ∧
    (set_vertex_properties (fun v => if v = 2 then 5 else 0)
        initialGraphPropState [(1, [7]), (2, [9])]).1.vprop 2 = [] ∧
    2 ∈ (set_vertex_properties (fun v => if v = 2 then 5 else 0)
        initialGraphPropState [(1, [7]), (2, [9])]).2 ∧
    (set_edge_properties (fun v => if v = 4 then 5 else 0)
        initialGraphPropState [(1, 2, [7]), (3, 4, [9])]).1.eprop (1, 2) =
      [7] ∧
    (1, 2) ∉ (set_edge_properties (fun v => if v = 4 then 5 else 0)
        initialGraphPropState [(1, 2, [7]), (3, 4, [9])]).2 ∧
    (3, 4) ∈ (set_edge_properties (fun v => if v = 4 then 5 else 0)
        initialGraphPropState [(1, 2, [7]), (3, 4, [9])]).2 := by
  have hv := set_properties_token_protocol.1 (fun v => if v = 2 then 5 else 0)
    initialGraphPropState [(1, [7]), (2, [9])]
  have he := set_properties_token_protocol.2 (fun v => if v = 4 then 5 else 0)
    initialGraphPropState [(1, 2, [7]), (3, 4, [9])]
  have h1 := (hv 1 [7] (by decide) (by decide)).1 rfl
  have h2 := (hv 2 [9] (by decide) (by decide)).2 (by decide)
  have h3 := (he 1 2 [7] (by decide) (by decide)).1 (And.intro rfl rfl)
  have h4 := (he 3 4 [9] (by decide) (by decide)).2 (by decide)
  exact And.intro h1.1 (And.intro h1.2.1 (And.intro h1.2.2 (And.intro h2.1
    (And.intro h2.2.2 (And.intro h3.1 (And.intro h3.2.2.2 h4.2.2.2))))))

end LibDvid
